import Mathlib

/-!
Shallow embedding of the ETL core of the `Witside_DWH_pipeline` repository
(`dwh_etl_pipeline.py`, with the status mapping from `dwh_config.py`).

Modelling conventions:
* A pandas `DataFrame` row is a record; a cell that may be `NaN`/`NaT` is an
  `Option`.  A column of a frame is the corresponding field of every record.
* Timestamps are integers (`Int`): `pd.to_datetime(s, errors='coerce')` is an
  abstract parameter `parse : String → Option Int` (`none` models `NaT`),
  since the actual date parser is an external library.
* `DataFrame.sort_values(by='event_time')` with the default
  `kind='quicksort'` guarantees (per the pandas documentation) only that the
  result is a permutation of the input ordered by the key; the default kind
  is documented as NOT stable.  The sort is therefore a parameter
  `sortFn` constrained by `SortSpec` (permutation + sorted by `event_time`),
  which is exactly the contract the library provides.
* Database effects (reads and inserts issued by the code) are made explicit
  as returned operation logs, so that frame conditions ("no write happened")
  are statable.
-/

namespace DWH

/-- `STATUS_MAP` from `dwh_config.py`: maps the csv status string to the
integer status id.  Lookup of an unmapped token yields `none`, which is what
`pandas.Series.map` with a dict produces (`NaN`). -/
def STATUS_MAP : String → Option Int
  | "START" => some 1
  | "ON" => some 2
  | "STOP" => some 3
  | _ => none

/-- One raw csv record with the three expected raw columns
(`production_line_id`, `status`, `timestamp`); a missing cell is `none`. -/
structure RawRecord where
  production_line_id : Option String
  status : Option String
  timestamp : Option String
deriving Repr, DecidableEq

/-- One row of the transformed frame `df` built inside `transform_raw_data`:
after the rename (`status` → `status_name`, `timestamp` → `event_time`), the
status mapping (`df['status_id'] = df['status_name'].map(STATUS_MAP)`) and
the timestamp parse (`df['event_time'] = pd.to_datetime(df['event_time'],
errors='coerce')`, which OVERWRITES the raw timestamp text). -/
structure Row where
  production_line_id : Option String
  status_name : Option String
  status_id : Option Int
  event_time : Option Int
deriving Repr, DecidableEq

/-- The per-row effect of step 2 of `transform_raw_data` (rename, status map,
timestamp parse). -/
def transformRow (parse : String → Option Int) (r : RawRecord) : Row :=
  { production_line_id := r.production_line_id
    status_name := r.status
    status_id := r.status.bind STATUS_MAP
    event_time := r.timestamp.bind parse }

/-- `df[required_cols].notna().all(axis=1)` for
`required_cols = ['production_line_id', 'status_id', 'event_time']`. -/
def isValid (r : Row) : Bool :=
  r.production_line_id.isSome && r.status_id.isSome && r.event_time.isSome

/-- Sort key used by `sort_values(by='event_time')`; on the clean frame every
`event_time` is `some`, so the default for `none` is irrelevant there. -/
def etKey (r : Row) : Int := r.event_time.getD 0

/-- Row comparison by event time (the `sort_values` key order). -/
def timeLE (a b : Row) : Prop := etKey a ≤ etKey b

instance : DecidableRel timeLE := fun a b =>
  inferInstanceAs (Decidable (etKey a ≤ etKey b))

instance : IsTotal Row timeLE := ⟨fun a b => Int.le_total (etKey a) (etKey b)⟩

instance : IsTrans Row timeLE := ⟨fun _ _ _ h h2 => le_trans h h2⟩

/-- The contract pandas documents for `sort_values(by='event_time')` with any
`kind`: the result is a permutation of the input, sorted by the key.  The
default `kind='quicksort'` promises nothing more (in particular it is not
documented to be stable). -/
def SortSpec (f : List Row → List Row) : Prop :=
  ∀ l : List Row, List.Perm (f l) l ∧ List.Sorted timeLE (f l)

/-- `transform_raw_data` (lines 46-90 of `dwh_etl_pipeline.py`): builds the
transformed frame, separates clean from quarantined rows by `is_valid`, and
sorts the clean frame chronologically.  The structural raw-column check
(lines 53-56) is vacuously satisfied in this typed model, where the three
raw columns always exist.  `sortFn` stands for
`sort_values(by='event_time')` (see `SortSpec`). -/
def transform_raw_data (sortFn : List Row → List Row)
    (parse : String → Option Int) (raw_df : List RawRecord) :
    List Row × List Row :=
  let df := raw_df.map (transformRow parse)
  let clean_fact_df := df.filter (fun r => isValid r)
  let quarantined_df := df.filter (fun r => !(isValid r))
  (sortFn clean_fact_df, quarantined_df)

/-- A stable sort by event time: one admissible implementation of
`sort_values` (used to instantiate hypotheses of the theorems below). -/
def goodSort (l : List Row) : List Row := List.insertionSort timeLE l

/-- An unstable but contract-conforming sort by event time: it reverses the
list before stably sorting, so rows with equal keys come out in reversed
relative order.  Admissible for `sort_values(kind='quicksort')`, whose tie
order is unspecified. -/
def badSort (l : List Row) : List Row := List.insertionSort timeLE l.reverse

/-- A row of the fact table `Fact_ProcessEvents`: exactly the three columns
projected at line 152 of `dwh_etl_pipeline.py`. -/
structure FactRow where
  production_line_id : Option String
  status_id : Option Int
  event_time : Option Int
deriving Repr, DecidableEq

/-- The projection `data_to_load[['production_line_id', 'status_id',
'event_time']]` applied to one row. -/
def projectFact (r : Row) : FactRow :=
  { production_line_id := r.production_line_id
    status_id := r.status_id
    event_time := r.event_time }

/-- Maximum of a list of integers, `none` on the empty list. -/
def listMax : List Int → Option Int
  | [] => none
  | t :: ts =>
    match listMax ts with
    | none => some t
    | some m => some (max t m)

/-- `SELECT MAX(event_time) FROM Fact_ProcessEvents`: SQL `MAX` ignores
`NULL` values and returns `NULL` when no non-null value exists. -/
def maxEventTime (table : List FactRow) : Option Int :=
  listMax (table.filterMap FactRow.event_time)

/-- `row['event_time'] > latest_event_time` in pandas: a `NaT` event time
compares false. -/
def timeGT (r : Row) (m : Int) : Bool :=
  match r.event_time with
  | some t => decide (m < t)
  | none => false

/-- Outcome of the `pd.read_sql(max_time_query, ...)` round trip at lines
133-140: either a value (possibly `NULL`, i.e. `none`) or a raised
exception, which the code catches. -/
inductive LookupResult where
  | ok (r : Option Int)
  | failed (msg : String)
deriving Repr, DecidableEq

/-- Observable outcome of the fact-loading step: the fact table afterwards,
the rows written by the `to_sql` call (`[]` when, the frame being empty, no
write is performed), whether a write call happened at all, and whether the
warning branch (line 139) ran. -/
structure LoadOutcome where
  newTable : List FactRow
  loaded : List FactRow
  didWrite : Bool
  warning : Bool
deriving Repr, DecidableEq

/-- Lines 130-161 of `dwh_etl_pipeline.py` (the Incremental Fact Loader),
parameterised by the result of the max-event-time lookup: on failure the
code prints a warning and falls back to `latest_event_time = pd.NaT`; a
`NaT`/`NULL` mark admits every clean row, otherwise only rows with
`event_time` strictly greater than the mark; the `to_sql` append happens
only when the filtered frame is non-empty. -/
def loadStep (lookup : LookupResult) (clean_fact_df : List Row)
    (table : List FactRow) : LoadOutcome :=
  let latest_event_time : Option Int :=
    match lookup with
    | LookupResult.ok r => r
    | LookupResult.failed _ => none
  let warn : Bool :=
    match lookup with
    | LookupResult.ok _ => false
    | LookupResult.failed _ => true
  let data_to_load : List Row :=
    match latest_event_time with
    | none => clean_fact_df
    | some m => clean_fact_df.filter (fun r => timeGT r m)
  if data_to_load.isEmpty then
    { newTable := table, loaded := [], didWrite := false, warning := warn }
  else
    { newTable := table ++ data_to_load.map projectFact
      loaded := data_to_load.map projectFact
      didWrite := true
      warning := warn }

/-- One successful run of the Incremental Fact Loader against fact-table
state `table`: the lookup returns the true maximum event time of the
table. -/
def runLoader (clean_fact_df : List Row) (table : List FactRow) :
    LoadOutcome :=
  loadStep (LookupResult.ok (maxEventTime table)) clean_fact_df table

/-- `pandas.Series.unique`: distinct values in order of first occurrence. -/
def pdUnique {α : Type} [DecidableEq α] (l : List α) : List α :=
  l.foldl (fun acc a => if a ∈ acc then acc else acc ++ [a]) []

/-- A database round trip issued by `check_and_insert_dimension`: the
`pd.read_sql` of the existing dimension keys, or the `to_sql` append of new
keys. -/
inductive DbOp where
  | readTable (table_name : String)
  | insertRows (table_name : String) (rows : List String)
deriving Repr, DecidableEq

/-- Outcome of one `check_and_insert_dimension` call: the dimension table
afterwards and the database operations performed, in order. -/
structure DimOutcome where
  table : List String
  ops : List DbOp
deriving Repr, DecidableEq

/-- Lines 12-43 of `dwh_etl_pipeline.py`: take the unique values of the key
column; return immediately when there are none; otherwise read the existing
dimension keys, keep only the values not already present, and append them
(one insert call) when any remain. -/
def check_and_insert_dimension (table_name : String) (keys : List String)
    (table : List String) : DimOutcome :=
  let unique_values := pdUnique keys
  if unique_values.isEmpty then
    { table := table, ops := [] }
  else
    let existing_values := table
    let to_insert :=
      unique_values.filter (fun v => !(decide (v ∈ existing_values)))
    if to_insert.isEmpty then
      { table := table, ops := [DbOp.readTable table_name] }
    else
      { table := table ++ to_insert
        ops := [DbOp.readTable table_name,
                DbOp.insertRows table_name to_insert] }

/-- Sequential (non-concurrent) repetition of `check_and_insert_dimension`,
one call per batch, each against the table state left by the previous call;
returns the final table and the concatenated operation log. -/
def runBatches (table_name : String) (table : List String) :
    List (List String) → List String × List DbOp
  | [] => (table, [])
  | b :: bs =>
    let o := check_and_insert_dimension table_name b table
    let rest := runBatches table_name o.table bs
    (rest.1, o.ops ++ rest.2)

/-- All key values carried by insert operations in a log, in order. -/
def insertedRows : List DbOp → List String
  | [] => []
  | DbOp.insertRows _ rows :: ops => rows ++ insertedRows ops
  | DbOp.readTable _ :: ops => insertedRows ops

/-- Whether a log contains any insert call at all. -/
def hasInsert (ops : List DbOp) : Bool :=
  ops.any fun op =>
    match op with
    | DbOp.insertRows _ _ => true
    | DbOp.readTable _ => false

/-- The quarantine step of `run_etl_pipeline` (lines 110-114): the
quarantine file is rewritten with the quarantined frame only when that frame
is non-empty; otherwise whatever the file held before is left untouched.
`prevFile` is the file content before the run (`none` = absent). -/
def run_etl_quarantine (sortFn : List Row → List Row)
    (parse : String → Option Int) (raw_df : List RawRecord)
    (prevFile : Option (List Row)) : Option (List Row) :=
  let quarantined_df := (transform_raw_data sortFn parse raw_df).2
  if quarantined_df.isEmpty then prevFile else some quarantined_df

/-- A date parser mapping every string to time 0 (used to build concrete
batches with tied timestamps). -/
def parseZero : String → Option Int := fun _ => some 0

/-- A date parser that fails on every string (all timestamps unparseable). -/
def parseNone : String → Option Int := fun _ => none

/-- Concrete raw record: line `L1`, status `START`, timestamp text `t1`. -/
def rawA : RawRecord :=
  { production_line_id := some "L1", status := some "START",
    timestamp := some "t1" }

/-- Concrete raw record: line `L2`, status `START`, timestamp text `t2`. -/
def rawB : RawRecord :=
  { production_line_id := some "L2", status := some "START",
    timestamp := some "t2" }

/-- Like `rawA` but with different (likewise unparseable) timestamp text. -/
def rawA2 : RawRecord :=
  { production_line_id := some "L1", status := some "START",
    timestamp := some "t2" }

/-- Concrete clean row for line `pid` at event time `t`, status `START`. -/
def rowAt (pid : String) (t : Int) : Row :=
  { production_line_id := some pid, status_name := some "START",
    status_id := some 1, event_time := some t }

/-- Formalisation of the spec sentence behind claim C1, quantified over
every sort implementation admissible for pandas
`sort_values(by='event_time', kind='quicksort')` (see `SortSpec`): the
accepted rows come out sorted ascending by event time AND, for each fixed
timestamp, in the same relative order as in the (transformed) input —
i.e. the sort behaves stably. -/
def SpecClaim_stableSorted : Prop :=
  ∀ sortFn : List Row → List Row, SortSpec sortFn →
    ∀ (parse : String → Option Int) (raw_df : List RawRecord),
      List.Sorted timeLE (transform_raw_data sortFn parse raw_df).1 ∧
      ∀ t : Int,
        (transform_raw_data sortFn parse raw_df).1.filter
            (fun r => decide (r.event_time = some t)) =
          ((raw_df.map (transformRow parse)).filter
              (fun r => isValid r)).filter
            (fun r => decide (r.event_time = some t))

/-- Formalisation of the spec sentence behind claim C5: a quarantined row
carries forward the original raw timestamp text of the record it came from,
i.e. that text is recoverable from the quarantined row. -/
def SpecClaim_quarantineCarriesRawTimestamp : Prop :=
  ∃ recover : Row → Option String,
    ∀ (parse : String → Option Int) (rr : RawRecord),
      isValid (transformRow parse rr) = false →
        recover (transformRow parse rr) = rr.timestamp

/-! ### Supporting lemmas -/

/-- The stable insertion sort satisfies the `sort_values` contract. -/
theorem goodSort_sortSpec : SortSpec goodSort := fun l =>
  ⟨List.perm_insertionSort timeLE l, List.sorted_insertionSort timeLE l⟩

/-- The tie-reversing sort also satisfies the `sort_values` contract. -/
theorem badSort_sortSpec : SortSpec badSort := fun l =>
  ⟨(List.perm_insertionSort timeLE l.reverse).trans l.reverse_perm,
   List.sorted_insertionSort timeLE l.reverse⟩

theorem listMax_eq_none {l : List Int} : listMax l = none ↔ l = [] := by
  cases l with
  | nil => simp [listMax]
  | cons t ts => cases h : listMax ts <;> simp [listMax, h]

theorem listMax_le {l : List Int} {a m : Int} (ha : a ∈ l)
    (hm : listMax l = some m) : a ≤ m := by
  induction l generalizing m with
  | nil => cases ha
  | cons t ts ih =>
    cases h : listMax ts with
    | none =>
      simp only [listMax, h] at hm
      have hts : ts = [] := listMax_eq_none.mp h
      subst hts
      have := Option.some.inj hm
      subst this
      exact le_of_eq (by simpa using ha)
    | some m2 =>
      simp only [listMax, h] at hm
      have := Option.some.inj hm
      subst this
      rcases List.mem_cons.mp ha with rfl | ha2
      · exact le_max_left _ _
      · exact le_trans (ih ha2 h) (le_max_right _ _)

theorem listMax_mem {l : List Int} {m : Int} (hm : listMax l = some m) :
    m ∈ l := by
  induction l generalizing m with
  | nil => simp [listMax] at hm
  | cons t ts ih =>
    cases h : listMax ts with
    | none =>
      simp only [listMax, h] at hm
      have := Option.some.inj hm
      subst this
      exact List.mem_cons_self _ _
    | some m2 =>
      simp only [listMax, h] at hm
      have := Option.some.inj hm
      subst this
      rcases max_choice t m2 with h2 | h2 <;> rw [h2]
      · exact List.mem_cons_self _ _
      · exact List.mem_cons_of_mem _ (ih h)

theorem listMax_exists_of_mem {l : List Int} {a : Int} (ha : a ∈ l) :
    ∃ m, listMax l = some m ∧ a ≤ m := by
  cases hm : listMax l with
  | none =>
    rw [listMax_eq_none] at hm
    subst hm
    cases ha
  | some m => exact ⟨m, rfl, listMax_le ha hm⟩

theorem projectFact_event_time (r : Row) :
    (projectFact r).event_time = r.event_time := rfl

/-- The event times of a fact table extended by projected rows. -/
theorem filterMap_projectFact_append (table : List FactRow)
    (rows : List Row) :
    (table ++ rows.map projectFact).filterMap FactRow.event_time =
      table.filterMap FactRow.event_time ++
        rows.filterMap Row.event_time := by
  rw [List.filterMap_append, List.filterMap_map]
  rfl

theorem maxEventTime_le {table : List FactRow} {fr : FactRow} {t M : Int}
    (hfr : fr ∈ table) (ht : fr.event_time = some t)
    (hM : maxEventTime table = some M) : t ≤ M :=
  listMax_le (List.mem_filterMap.mpr ⟨fr, hfr, ht⟩) hM

/-- With no high-water mark, a loader run appends the projection of every
clean row (vacuously also when there are none). -/
theorem runLoader_newTable_none {clean : List Row} {table : List FactRow}
    (h0 : maxEventTime table = none) :
    (runLoader clean table).newTable = table ++ clean.map projectFact := by
  by_cases hc : clean.isEmpty
  · have hnil : clean = [] := List.isEmpty_iff.mp hc
    subst hnil
    simp [runLoader, loadStep, h0]
  · simp [runLoader, loadStep, h0, hc]

/-- With high-water mark `m`, a loader run appends the projection of the
clean rows strictly newer than `m`. -/
theorem runLoader_newTable_some {clean : List Row} {table : List FactRow}
    {m : Int} (h0 : maxEventTime table = some m) :
    (runLoader clean table).newTable =
      table ++ (clean.filter (fun r => timeGT r m)).map projectFact := by
  by_cases hc : (clean.filter (fun r => timeGT r m)).isEmpty
  · have hnil : clean.filter (fun r => timeGT r m) = [] :=
      List.isEmpty_iff.mp hc
    simp [runLoader, loadStep, h0, hnil]
  · simp [runLoader, loadStep, h0, hc]

/-- If every clean row's event time is bounded by the table's high-water
mark, a loader run loads nothing and performs no write. -/
theorem runLoader_no_new {clean : List Row} {T2 : List FactRow}
    (h : ∀ r ∈ clean, ∃ M, maxEventTime T2 = some M ∧
      ∃ t, r.event_time = some t ∧ t ≤ M) :
    (runLoader clean T2).loaded = [] ∧
      (runLoader clean T2).didWrite = false := by
  cases hM : maxEventTime T2 with
  | none =>
    have hc : clean = [] := by
      cases clean with
      | nil => rfl
      | cons a l =>
        rcases h a (List.mem_cons_self a l) with ⟨M, hM2, _⟩
        rw [hM] at hM2
        cases hM2
    subst hc
    simp [runLoader, loadStep, hM]
  | some M =>
    have hdata : clean.filter (fun r => timeGT r M) = [] := by
      rw [List.filter_eq_nil_iff]
      intro r hr
      rcases h r hr with ⟨M2, hM2, t, ht, hle⟩
      rw [hM] at hM2
      have := Option.some.inj hM2
      subst this
      simp [timeGT, ht, not_lt.mpr hle]
    simp [runLoader, loadStep, hM, hdata]

/-- After one loader run, every clean row's event time is bounded by the new
table's high-water mark. -/
theorem le_max_newTable (clean : List Row) (table : List FactRow) (r : Row)
    (hr : r ∈ clean) (t : Int) (ht : r.event_time = some t) :
    ∃ M, maxEventTime (runLoader clean table).newTable = some M ∧
      t ≤ M := by
  have htimes : ∀ rows : List Row, r ∈ rows →
      t ∈ (table ++ rows.map projectFact).filterMap FactRow.event_time := by
    intro rows hrow
    rw [filterMap_projectFact_append]
    exact List.mem_append_right _ (List.mem_filterMap.mpr ⟨r, hrow, ht⟩)
  cases h0 : maxEventTime table with
  | none =>
    rw [runLoader_newTable_none h0]
    exact listMax_exists_of_mem (htimes clean hr)
  | some m =>
    rw [runLoader_newTable_some h0]
    by_cases hgt : timeGT r m = true
    · have hmem : r ∈ clean.filter (fun r => timeGT r m) :=
        List.mem_filter.mpr ⟨hr, hgt⟩
      exact listMax_exists_of_mem (htimes _ hmem)
    · have hle : t ≤ m := by
        have hdec : decide (m < t) = false := by
          simpa [timeGT, ht] using hgt
        exact not_lt.mp (of_decide_eq_false hdec)
      have hm_mem : m ∈ table.filterMap FactRow.event_time :=
        listMax_mem h0
      have hm_mem2 : m ∈ (table ++
          (clean.filter (fun r => timeGT r m)).map
            projectFact).filterMap FactRow.event_time := by
        rw [List.filterMap_append]
        exact List.mem_append_left _ hm_mem
      rcases listMax_exists_of_mem hm_mem2 with ⟨M, hM, hmM⟩
      exact ⟨M, hM, le_trans hle hmM⟩

theorem pdUnique_loop_mem {α : Type} [DecidableEq α] :
    ∀ (l acc : List α) (x : α),
      x ∈ l.foldl (fun acc a => if a ∈ acc then acc else acc ++ [a]) acc ↔
        x ∈ acc ∨ x ∈ l := by
  intro l
  induction l with
  | nil => intro acc x; simp
  | cons a l ih =>
    intro acc x
    simp only [List.foldl_cons]
    by_cases h : a ∈ acc
    · rw [if_pos h, ih acc x, List.mem_cons]
      constructor
      · rintro (hx | hx)
        · exact Or.inl hx
        · exact Or.inr (Or.inr hx)
      · rintro (hx | rfl | hx)
        · exact Or.inl hx
        · exact Or.inl h
        · exact Or.inr hx
    · rw [if_neg h, ih (acc ++ [a]) x, List.mem_append,
        List.mem_singleton, List.mem_cons]
      tauto

theorem pdUnique_loop_nodup {α : Type} [DecidableEq α] :
    ∀ (l acc : List α), acc.Nodup →
      (l.foldl (fun acc a => if a ∈ acc then acc else acc ++ [a])
        acc).Nodup := by
  intro l
  induction l with
  | nil => intro acc h; simpa using h
  | cons a l ih =>
    intro acc h
    simp only [List.foldl_cons]
    by_cases ha : a ∈ acc
    · rw [if_pos ha]; exact ih acc h
    · rw [if_neg ha]
      refine ih _ ?_
      rw [List.nodup_append]
      exact ⟨h, List.nodup_singleton a,
        fun x hx hxa => ha ((List.mem_singleton.mp hxa) ▸ hx)⟩

theorem mem_pdUnique {α : Type} [DecidableEq α] {l : List α} {x : α} :
    x ∈ pdUnique l ↔ x ∈ l := by
  rw [pdUnique, pdUnique_loop_mem]
  simp

theorem pdUnique_nodup {α : Type} [DecidableEq α] (l : List α) :
    (pdUnique l).Nodup :=
  pdUnique_loop_nodup l [] List.nodup_nil

theorem pdUnique_eq_nil {α : Type} [DecidableEq α] {l : List α} :
    pdUnique l = [] ↔ l = [] := by
  constructor
  · intro h
    cases l with
    | nil => rfl
    | cons a l =>
      have ha : a ∈ pdUnique (a :: l) :=
        mem_pdUnique.mpr (List.mem_cons_self a l)
      rw [h] at ha
      cases ha
  · rintro rfl; rfl

theorem insertedRows_append (l1 l2 : List DbOp) :
    insertedRows (l1 ++ l2) = insertedRows l1 ++ insertedRows l2 := by
  induction l1 with
  | nil => rfl
  | cons op ops ih =>
    cases op with
    | readTable n => simpa [insertedRows] using ih
    | insertRows n rows => simp [insertedRows, ih]

/-- Case-analysis normal form of `check_and_insert_dimension`. -/
theorem check_insert_cases (table_name : String) (keys table : List String) :
    check_and_insert_dimension table_name keys table =
      if keys = [] then { table := table, ops := [] }
      else if (pdUnique keys).filter (fun v => !(decide (v ∈ table))) = []
      then { table := table, ops := [DbOp.readTable table_name] }
      else
        { table := table ++
            (pdUnique keys).filter (fun v => !(decide (v ∈ table)))
          ops := [DbOp.readTable table_name,
            DbOp.insertRows table_name
              ((pdUnique keys).filter (fun v => !(decide (v ∈ table))))] } := by
  unfold check_and_insert_dimension
  dsimp only
  by_cases h1 : (pdUnique keys).isEmpty
  · have hk : keys = [] := pdUnique_eq_nil.mp (List.isEmpty_iff.mp h1)
    rw [if_pos h1, if_pos hk]
  · have hk : ¬keys = [] := fun hk => h1 (by subst hk; rfl)
    rw [if_neg h1, if_neg hk]
    by_cases h2 :
      ((pdUnique keys).filter (fun v => !(decide (v ∈ table)))).isEmpty
    · have hf : (pdUnique keys).filter (fun v => !(decide (v ∈ table))) =
          [] := List.isEmpty_iff.mp h2
      rw [if_pos h2, if_pos hf]
    · have hf : ¬(pdUnique keys).filter (fun v => !(decide (v ∈ table))) =
          [] := fun hf => h2 (by rw [hf]; rfl)
      rw [if_neg h2, if_neg hf]

/-- Per-call characterisation of the dimension reconciler: the table grows
by exactly the inserted keys; those keys are pairwise distinct; and a key is
inserted iff it occurs in the batch and was absent from the table. -/
theorem check_insert_spec (table_name : String) (keys table : List String) :
    (check_and_insert_dimension table_name keys table).table =
      table ++
        insertedRows (check_and_insert_dimension table_name keys table).ops ∧
    (insertedRows
      (check_and_insert_dimension table_name keys table).ops).Nodup ∧
    ∀ k, k ∈ insertedRows
        (check_and_insert_dimension table_name keys table).ops ↔
      k ∈ keys ∧ k ∉ table := by
  rw [check_insert_cases]
  split_ifs with hk hf
  · subst hk
    exact ⟨by simp [insertedRows], by simp [insertedRows],
      fun k => by simp [insertedRows]⟩
  · refine ⟨by simp [insertedRows], by simp [insertedRows], fun k => ?_⟩
    simp only [insertedRows, List.not_mem_nil, false_iff]
    rw [List.filter_eq_nil_iff] at hf
    rintro ⟨hkk, hkt⟩
    have := hf k (mem_pdUnique.mpr hkk)
    exact hkt (by simpa using this)
  · refine ⟨by simp [insertedRows], ?_, fun k => ?_⟩
    · simpa [insertedRows] using (pdUnique_nodup keys).filter _
    · simp [insertedRows, List.mem_filter, mem_pdUnique]

/-- Fold-level characterisation of sequential reconciler runs. -/
theorem runBatches_spec (table_name : String) :
    ∀ (batches : List (List String)) (t : List String),
      ((runBatches table_name t batches).1 =
        t ++ insertedRows (runBatches table_name t batches).2) ∧
      (insertedRows (runBatches table_name t batches).2).Nodup ∧
      ∀ k, k ∈ insertedRows (runBatches table_name t batches).2 ↔
        k ∉ t ∧ ∃ b ∈ batches, k ∈ b := by
  intro batches
  induction batches with
  | nil => intro t; simp [runBatches, insertedRows]
  | cons b bs ih =>
    intro t
    obtain ⟨h1, h2, h3⟩ := check_insert_spec table_name b t
    obtain ⟨ih1, ih2, ih3⟩ :=
      ih (check_and_insert_dimension table_name b t).table
    have hmemT : ∀ k,
        k ∈ (check_and_insert_dimension table_name b t).table ↔
          k ∈ t ∨ k ∈ b := by
      intro k
      rw [h1, List.mem_append, h3]
      constructor
      · rintro (hk | ⟨hk, _⟩)
        · exact Or.inl hk
        · exact Or.inr hk
      · rintro (hk | hk)
        · exact Or.inl hk
        · by_cases ht : k ∈ t
          · exact Or.inl ht
          · exact Or.inr ⟨hk, ht⟩
    simp only [runBatches]
    rw [insertedRows_append]
    refine ⟨?_, ?_, ?_⟩
    · rw [ih1, h1, List.append_assoc]
    · rw [List.nodup_append]
      refine ⟨h2, ih2, fun x hx hx2 => ?_⟩
      have hxb : x ∈ b ∧ x ∉ t := (h3 x).mp hx
      have hxT : x ∉ (check_and_insert_dimension table_name b t).table :=
        ((ih3 x).mp hx2).1
      exact hxT ((hmemT x).mpr (Or.inr hxb.1))
    · intro k
      rw [List.mem_append, h3, ih3, hmemT k]
      constructor
      · rintro (⟨hkb, hkt⟩ | ⟨hknew, b2, hb2, hkb2⟩)
        · exact ⟨hkt, b, List.mem_cons_self b bs, hkb⟩
        · have hkt : k ∉ t := fun hk => hknew (Or.inl hk)
          exact ⟨hkt, b2, List.mem_cons_of_mem b hb2, hkb2⟩
      · rintro ⟨hkt, b2, hb2, hkb2⟩
        rcases List.mem_cons.mp hb2 with rfl | hb2tail
        · exact Or.inl ⟨hkb2, hkt⟩
        · by_cases hkb : k ∈ b
          · exact Or.inl ⟨hkb, hkt⟩
          · exact Or.inr ⟨fun h => (h.elim hkt hkb), b2, hb2tail, hkb2⟩

/-! ### Claims -/

/-- C1, counterexample: the claim "accepted events are sorted ascending by
`event_time` AND the sort is stable (ties keep input order)" is false for
the code, whose `sort_values` uses the pandas default `kind='quicksort'` and
therefore guarantees only `SortSpec`: a conforming sort (`badSort`) on the
concrete two-record batch `[rawA, rawB]` with tied timestamps returns the
tied rows in reversed input order. -/
theorem c1_counterexample : ¬SpecClaim_stableSorted := by
  intro h
  have h2 := (h badSort badSort_sortSpec parseZero [rawA, rawB]).2 0
  exact absurd h2 (by decide)

/-- C1, amended: for every sort implementation admissible for
`sort_values(by='event_time', kind='quicksort')`, the accepted rows of
`transform_raw_data` are sorted ascending by `event_time` and are a
permutation of the valid transformed input rows; the relative order of rows
with equal `event_time` is not guaranteed. -/
theorem c1_accepted_sorted (sortFn : List Row → List Row)
    (hs : SortSpec sortFn) (parse : String → Option Int)
    (raw_df : List RawRecord) :
    List.Sorted timeLE (transform_raw_data sortFn parse raw_df).1 ∧
      List.Perm (transform_raw_data sortFn parse raw_df).1
        ((raw_df.map (transformRow parse)).filter (fun r => isValid r)) :=
  ⟨(hs _).2, (hs _).1⟩

/-- C1, witness: the amended theorem applied to the stable insertion sort
(an admissible `sort_values` implementation) on a concrete batch. -/
theorem c1_witness :
    List.Sorted timeLE
      (transform_raw_data goodSort parseZero [rawA, rawB]).1 :=
  (c1_accepted_sorted goodSort goodSort_sortSpec parseZero [rawA, rawB]).1

/-- C2: the Incremental Fact Loader with lookup result `m` loads every
clean row when `m` is null, and exactly the rows with `event_time` strictly
greater than `x` when `m = some x`, always projecting the three fact columns
(`projectFact`); when nothing is eligible it performs no write and leaves
the table unchanged; the loaded rows are appended to the table; and an
empty fact table indeed yields a null maximum. -/
theorem c2_incremental_filter (clean_fact_df : List Row)
    (table : List FactRow) (m : Option Int) :
    (m = none →
      (loadStep (LookupResult.ok m) clean_fact_df table).loaded =
        clean_fact_df.map projectFact) ∧
    (∀ x : Int, m = some x →
      (loadStep (LookupResult.ok m) clean_fact_df table).loaded =
        (clean_fact_df.filter (fun r => timeGT r x)).map projectFact) ∧
    ((loadStep (LookupResult.ok m) clean_fact_df table).loaded = [] →
      (loadStep (LookupResult.ok m) clean_fact_df table).didWrite = false ∧
      (loadStep (LookupResult.ok m) clean_fact_df table).newTable =
        table) ∧
    (loadStep (LookupResult.ok m) clean_fact_df table).newTable =
      table ++ (loadStep (LookupResult.ok m) clean_fact_df table).loaded ∧
    maxEventTime [] = none := by
  cases m with
  | none =>
    refine ⟨fun _ => ?_, fun x hx => Option.noConfusion hx,
      fun hl => ?_, ?_, rfl⟩
    · by_cases hc : clean_fact_df.isEmpty
      · have hnil : clean_fact_df = [] := List.isEmpty_iff.mp hc
        subst hnil
        rfl
      · simp [loadStep, hc]
    · by_cases hc : clean_fact_df.isEmpty
      · have hnil : clean_fact_df = [] := List.isEmpty_iff.mp hc
        subst hnil
        exact ⟨rfl, rfl⟩
      · exfalso
        have hmap : clean_fact_df.map projectFact = [] := by
          simpa [loadStep, hc] using hl
        exact hc (by simp [List.isEmpty_iff, List.map_eq_nil_iff.mp hmap])
    · by_cases hc : clean_fact_df.isEmpty
      · have hnil : clean_fact_df = [] := List.isEmpty_iff.mp hc
        subst hnil
        simp [loadStep]
      · simp [loadStep, hc]
  | some x =>
    refine ⟨fun hx => Option.noConfusion hx, fun y hy => ?_,
      fun hl => ?_, ?_, rfl⟩
    · have hxy : x = y := Option.some.inj hy
      subst hxy
      by_cases hc : (clean_fact_df.filter (fun r => timeGT r x)).isEmpty
      · have hnil : clean_fact_df.filter (fun r => timeGT r x) = [] :=
          List.isEmpty_iff.mp hc
        simp [loadStep, hnil]
      · simp [loadStep, hc]
    · by_cases hc : (clean_fact_df.filter (fun r => timeGT r x)).isEmpty
      · have hnil : clean_fact_df.filter (fun r => timeGT r x) = [] :=
          List.isEmpty_iff.mp hc
        exact ⟨by simp [loadStep, hnil], by simp [loadStep, hnil]⟩
      · exfalso
        have hmap : (clean_fact_df.filter (fun r => timeGT r x)).map
            projectFact = [] := by
          simpa [loadStep, hc] using hl
        exact hc (by simp [List.isEmpty_iff, List.map_eq_nil_iff.mp hmap])
    · by_cases hc : (clean_fact_df.filter (fun r => timeGT r x)).isEmpty
      · have hnil : clean_fact_df.filter (fun r => timeGT r x) = [] :=
          List.isEmpty_iff.mp hc
        simp [loadStep, hnil]
      · simp [loadStep, hc]

/-- C2, witness: the spec scenario — high-water mark `10`, clean events at
times `5` and `15`; only the event at `15` is loaded, projected to the
three fact columns. -/
theorem c2_witness :
    (loadStep (LookupResult.ok (some 10))
        [rowAt "L1" 5, rowAt "L1" 15] []).loaded =
      [projectFact (rowAt "L1" 15)] := by
  have h := (c2_incremental_filter [rowAt "L1" 5, rowAt "L1" 15] []
    (some 10)).2.1 10 rfl
  rw [h]
  decide

/-- C3: immediately re-running the Incremental Fact Loader with the same
accepted events against the fact-table state produced by the first run (and
no intervening external writes) loads zero rows and performs no write. -/
theorem c3_second_run_loads_nothing (clean_fact_df : List Row)
    (table : List FactRow)
    (h : ∀ r ∈ clean_fact_df, (Row.event_time r).isSome = true) :
    (runLoader clean_fact_df
        (runLoader clean_fact_df table).newTable).loaded = [] ∧
      (runLoader clean_fact_df
        (runLoader clean_fact_df table).newTable).didWrite = false := by
  apply runLoader_no_new
  intro r hr
  rcases Option.isSome_iff_exists.mp (h r hr) with ⟨t, ht⟩
  rcases le_max_newTable clean_fact_df table r hr t ht with ⟨M, hM, hle⟩
  exact ⟨M, hM, t, ht, hle⟩

/-- C3, witness: a concrete one-event batch loaded into an empty fact
table; the immediate second run loads nothing. -/
theorem c3_witness :
    (runLoader [rowAt "L1" 5]
        (runLoader [rowAt "L1" 5] []).newTable).loaded = [] :=
  (c3_second_run_loads_nothing [rowAt "L1" 5] [] (by decide)).1

/-- C4: `transform_raw_data` partitions its input exactly — accepted and
quarantined together are a permutation of the transformed input, every row
lands in the side matching its validity, row multiplicities add up, and a
row is accepted iff it occurs in the input and its `production_line_id`,
mapped `status_id` and parsed `event_time` are all non-null (`isValid`). -/
theorem c4_partition (sortFn : List Row → List Row) (hs : SortSpec sortFn)
    (parse : String → Option Int) (raw_df : List RawRecord) :
    List.Perm
      ((transform_raw_data sortFn parse raw_df).1 ++
        (transform_raw_data sortFn parse raw_df).2)
      (raw_df.map (transformRow parse)) ∧
    (∀ r ∈ (transform_raw_data sortFn parse raw_df).1,
      isValid r = true) ∧
    (∀ r ∈ (transform_raw_data sortFn parse raw_df).2,
      isValid r = false) ∧
    (∀ r : Row,
      List.count r (transform_raw_data sortFn parse raw_df).1 +
        List.count r (transform_raw_data sortFn parse raw_df).2 =
        List.count r (raw_df.map (transformRow parse))) ∧
    ∀ r : Row,
      r ∈ (transform_raw_data sortFn parse raw_df).1 ↔
        r ∈ raw_df.map (transformRow parse) ∧ isValid r = true := by
  have hperm1 :
      List.Perm (transform_raw_data sortFn parse raw_df).1
        ((raw_df.map (transformRow parse)).filter (fun r => isValid r)) :=
    (hs _).1
  have hperm : List.Perm
      ((transform_raw_data sortFn parse raw_df).1 ++
        (transform_raw_data sortFn parse raw_df).2)
      (raw_df.map (transformRow parse)) :=
    (hperm1.append_right _).trans (List.filter_append_perm _ _)
  refine ⟨hperm, ?_, ?_, ?_, ?_⟩
  · intro r hr
    exact (List.mem_filter.mp (hperm1.mem_iff.mp hr)).2
  · intro r hr
    have h2 := List.mem_filter.mp hr
    simpa using h2.2
  · intro r
    have hcount := hperm.count_eq r
    rwa [List.count_append] at hcount
  · intro r
    rw [hperm1.mem_iff, List.mem_filter]

/-- C4, witness: the partition permutation at a concrete two-record batch
under the stable insertion sort. -/
theorem c4_witness :
    List.Perm
      ((transform_raw_data goodSort parseZero [rawA, rawB]).1 ++
        (transform_raw_data goodSort parseZero [rawA, rawB]).2)
      ([rawA, rawB].map (transformRow parseZero)) :=
  (c4_partition goodSort goodSort_sortSpec parseZero [rawA, rawB]).1

/-- C5, counterexample: quarantined rows do NOT carry forward the raw
timestamp text — `transform_raw_data` overwrites `event_time` with the
parsed value, so two records differing only in (unparseable) timestamp text
produce identical quarantined rows and no recovery function can exist. -/
theorem c5_counterexample : ¬SpecClaim_quarantineCarriesRawTimestamp := by
  rintro ⟨recover, h⟩
  have hA := h parseNone rawA (by decide)
  have hB := h parseNone rawA2 (by decide)
  have hEq : transformRow parseNone rawA = transformRow parseNone rawA2 :=
    by decide
  rw [hEq] at hA
  rw [hA] at hB
  exact absurd hB (by decide)

/-- C5, amended: a quarantined record carries forward the original raw line
identifier and raw status text, together with the partially-transformed
`status_id` (status map applied) and `event_time` (parse applied, possibly
null); the raw timestamp text itself is replaced by the parsed value and is
not retained. -/
theorem c5_quarantine_fields (sortFn : List Row → List Row)
    (parse : String → Option Int) (raw_df : List RawRecord) :
    (transform_raw_data sortFn parse raw_df).2 =
      (raw_df.filter
        (fun rr => !(isValid (transformRow parse rr)))).map
          (transformRow parse) ∧
    ∀ rr : RawRecord,
      (transformRow parse rr).production_line_id =
        rr.production_line_id ∧
      (transformRow parse rr).status_name = rr.status ∧
      (transformRow parse rr).status_id = rr.status.bind STATUS_MAP ∧
      (transformRow parse rr).event_time = rr.timestamp.bind parse := by
  constructor
  · show (raw_df.map (transformRow parse)).filter _ = _
    rw [List.filter_map]
    rfl
  · intro rr
    exact ⟨rfl, rfl, rfl, rfl⟩

/-- C6: across sequential reconciler runs, a key is inserted exactly once
iff it occurs in some batch and was absent from the initial table (zero
times otherwise — in particular keys already present are never inserted);
and a single call whose observed keys all exist already performs no insert
call at all. -/
theorem c6_dimension_inserted_once (table_name : String)
    (t0 : List String) (batches : List (List String)) (k : String) :
    (List.count k (insertedRows (runBatches table_name t0 batches).2) =
      if k ∉ t0 ∧ ∃ b ∈ batches, k ∈ b then 1 else 0) ∧
    ∀ keys table : List String, (∀ v ∈ keys, v ∈ table) →
      hasInsert (check_and_insert_dimension table_name keys table).ops =
        false := by
  constructor
  · obtain ⟨-, h2, h3⟩ := runBatches_spec table_name batches t0
    by_cases hk : k ∉ t0 ∧ ∃ b ∈ batches, k ∈ b
    · rw [if_pos hk]
      exact List.count_eq_one_of_mem h2 ((h3 k).mpr hk)
    · rw [if_neg hk]
      exact List.count_eq_zero.mpr fun hmem => hk ((h3 k).mp hmem)
  · intro keys table hkt
    rw [check_insert_cases]
    split_ifs with hke hf
    · rfl
    · rfl
    · exfalso
      apply hf
      rw [List.filter_eq_nil_iff]
      intro v hv
      simp [hkt v (mem_pdUnique.mp hv)]

/-- C6, witness: two successive batches introducing the same new key insert
it exactly once in total. -/
theorem c6_witness :
    List.count "L1"
      (insertedRows
        (runBatches "Dim_ProductionLine" [] [["L1"], ["L1"]]).2) = 1 := by
  rw [(c6_dimension_inserted_once "Dim_ProductionLine" []
    [["L1"], ["L1"]] "L1").1]
  decide

/-- C7: when the max-event-time lookup fails, the loader surfaces a warning
(a successful lookup never does), treats the fact table as empty — every
clean row is loaded — and the run continues to append the projected rows
(it does not abort). -/
theorem c7_lookup_failure_degrades (msg : String)
    (clean_fact_df : List Row) (table : List FactRow) :
    (loadStep (LookupResult.failed msg) clean_fact_df table).warning =
      true ∧
    (∀ m : Option Int,
      (loadStep (LookupResult.ok m) clean_fact_df table).warning =
        false) ∧
    (loadStep (LookupResult.failed msg) clean_fact_df table).loaded =
      clean_fact_df.map projectFact ∧
    (loadStep (LookupResult.failed msg) clean_fact_df table).newTable =
      table ++ clean_fact_df.map projectFact := by
  have hwarn : ∀ m : Option Int,
      (loadStep (LookupResult.ok m) clean_fact_df table).warning =
        false := by
    intro m
    cases m with
    | none =>
      by_cases hc : clean_fact_df.isEmpty <;> simp [loadStep, hc]
    | some x =>
      by_cases hcf :
          (clean_fact_df.filter (fun r => timeGT r x)).isEmpty <;>
        simp [loadStep, hcf]
  by_cases hc : clean_fact_df.isEmpty
  · have hnil : clean_fact_df = [] := List.isEmpty_iff.mp hc
    subst hnil
    exact ⟨rfl, hwarn, rfl, by simp [loadStep]⟩
  · exact ⟨by simp [loadStep, hc], hwarn, by simp [loadStep, hc],
      by simp [loadStep, hc]⟩

/-- C8: the quarantined rows keep their relative input order — the
quarantined frame is a sublist (order-preserving selection) of the
transformed input frame. -/
theorem c8_quarantine_preserves_order (sortFn : List Row → List Row)
    (parse : String → Option Int) (raw_df : List RawRecord) :
    List.Sublist (transform_raw_data sortFn parse raw_df).2
      (raw_df.map (transformRow parse)) :=
  List.filter_sublist (raw_df.map (transformRow parse))

/-- C9: invoked with zero values in the key column, the reconciler returns
before any database operation — the operation log is empty (no read of the
dimension table, no insert) and the table is untouched. -/
theorem c9_empty_batch_no_db_ops (table_name : String)
    (table : List String) :
    check_and_insert_dimension table_name [] table =
      { table := table, ops := [] } := rfl

/-- C10: a run whose batch yields zero quarantined records performs no
write to the quarantine file; whatever artifact a previous run left there
remains unchanged. -/
theorem c10_no_quarantine_write (sortFn : List Row → List Row)
    (parse : String → Option Int) (raw_df : List RawRecord)
    (prevFile : Option (List Row))
    (h : (transform_raw_data sortFn parse raw_df).2 = []) :
    run_etl_quarantine sortFn parse raw_df prevFile = prevFile := by
  simp [run_etl_quarantine, h]

/-- C10, witness: a concrete all-valid batch leaves a pre-existing
quarantine artifact untouched. -/
theorem c10_witness :
    run_etl_quarantine goodSort parseZero [rawA] (some [rowAt "Q" 9]) =
      some [rowAt "Q" 9] :=
  c10_no_quarantine_write goodSort parseZero [rawA] (some [rowAt "Q" 9])
    (by decide)

end DWH
